import Mathlib

/-!
Verification development for the fadr2chart repository (src/main.py).

Shallow embedding conventions:
* Python floats are modelled as exact rationals (ℚ).  All quantities the
  claims speak about (seconds, BPM, ticks) are small exact values, so ℚ
  mirrors the intended real-number semantics of the source.
* Tick positions (`current_8th`) are modelled as ℤ.  In the source they are
  Python floats that always hold integral values, and Python's `x in dict`
  compares them numerically with the integer keys of the sync track, so the
  integer model is exact.
* The sync track (a Python dict from tick to bpm*1000) is modelled as an
  association list with unique keys; `sync_lookup` is dict access.
* The `while True` simulation loop of `find_beat_time_for_seconds` is
  modelled with explicit fuel; `none` means the loop did not terminate
  within the given fuel.  An uncaught Python `KeyError` from
  `sync_track[0]` (tick 0 absent) is modelled as `MapErr.missingTickZero`.
-/

/-- Global resolution constant (`RESOLUTION = 192` in `__main__`). -/
def RESOLUTION : ℚ := 192

/-- Local step constant of `map_to_beat_time` (`RESULUTION = 192 / 2`),
the tick step of the simulation loop (an eighth note). -/
def RESULUTION : ℤ := 192 / 2

/-- Source `beats_to_seconds(res_value, bpm)`:
`beats = (res_value / RESOLUTION) * 0.5; return beats * (1 / (bpm / 60))`. -/
def beats_to_seconds (res_value bpm : ℚ) : ℚ :=
  ((res_value / RESOLUTION) * (1/2)) * (1 / (bpm / 60))

/-- A sync track: association list from tick to bpm*1000 (Python dict with
unique integer keys, as produced by `read_sync_track`). -/
abbrev SyncTrack := List (ℤ × ℤ)

/-- Python dict access / membership (`current_8th in sync_track`,
`sync_track[current_8th]`). -/
def sync_lookup (t : ℤ) : SyncTrack → Option ℤ
  | [] => none
  | (k, v) :: rest => if t = k then some v else sync_lookup t rest

/-- State of the simulation loop in `find_beat_time_for_seconds`. -/
structure MState where
  current_8th : ℤ
  current_bpm : ℚ
  current_seconds : ℚ
  candidates : List (ℤ × ℚ)

/-- One iteration of the `while True` body in `find_beat_time_for_seconds`
(lines 118-128 of src/main.py), before the break test. -/
def loop_body (sync : SyncTrack) (s : MState) : MState :=
  let t := s.current_8th + RESULUTION
  let sec := if 0 < t then s.current_seconds + beats_to_seconds RESOLUTION s.current_bpm
             else s.current_seconds
  let bpm := match sync_lookup t sync with
    | some v => (v : ℚ) / 1000
    | none => s.current_bpm
  let cs0 := s.candidates ++ [(t, sec)]
  let cs := if 3 < cs0.length then cs0.drop 1 else cs0
  ⟨t, bpm, sec, cs⟩

/-- The `while True` loop with explicit fuel; returns the candidate buffer
at the break (`current_seconds > seconds_to_find`), or `none` if the loop
has not broken within `fuel` iterations. -/
def loop_go (sync : SyncTrack) (target : ℚ) : ℕ → MState → Option (List (ℤ × ℚ))
  | 0, _ => none
  | fuel+1, s =>
    let s' := loop_body sync s
    if target < s'.current_seconds then some s'.candidates
    else loop_go sync target fuel s'

/-- The `closest` selection fold of lines 134-137: first strictly closer
candidate replaces, so the earliest-inserted candidate wins ties. -/
def closest_fold (target : ℚ) (cs : List (ℤ × ℚ)) : Option (ℤ × ℚ) :=
  cs.foldl (fun closest c =>
    match closest with
    | none => some c
    | some b => if |c.2 - target| < |b.2 - target| then some c else some b) none

/-- Source `closest['8th']`.  The default 0 is never reached on inputs the
loop produces: the break always appends the breaking candidate first, so
the buffer is non-empty. -/
def closest_8th (target : ℚ) (cs : List (ℤ × ℚ)) : ℤ :=
  ((closest_fold target cs).map Prod.fst).getD 0

/-- Failure of the mapper: Python raises an uncaught `KeyError` at
`current_bpm = sync_track[0] / 1000.0` when the sync track lacks tick 0
(the spec's `MalformedTempoMap` condition). -/
inductive MapErr
  | missingTickZero
deriving DecidableEq

deriving instance DecidableEq for Except

/-- Initial loop state: `current_8th = -RESULUTION`, `current_bpm =
sync_track[0] / 1000.0`, `current_seconds = 0`, `candidates = []`. -/
def initState (v0 : ℤ) : MState := ⟨-RESULUTION, (v0 : ℚ) / 1000, 0, []⟩

/-- Source `find_beat_time_for_seconds` (lines 113-139).  Outer `none`
models non-termination of the `while True` loop within the fuel. -/
def find_beat_time_for_seconds (sync : SyncTrack) (seconds_to_find : ℚ) (fuel : ℕ) :
    Option (Except MapErr ℤ) :=
  match sync_lookup 0 sync with
  | none => some (.error .missingTickZero)
  | some v0 =>
    (loop_go sync seconds_to_find fuel (initState v0)).map
      (fun cs => .ok (closest_8th seconds_to_find cs))

/-- A hit event handed to `map_to_beat_time`
(`{'instrument': ..., 'time': ...}`). -/
structure Hit where
  instrument : String
  time : ℚ

/-- An output note of `map_to_beat_time` (`{'instrument': ..., 'time': beat_time}`). -/
structure NoteOut where
  instrument : String
  time : ℤ

/-- Insert into an already-sorted accumulator keeping existing
equal-or-smaller keys in front: together with `sortHits` this models
Python's stable `sorted(..., key=lambda x: x['time'])`. -/
def insertHit (h : Hit) : List Hit → List Hit
  | [] => [h]
  | x :: xs => if x.time ≤ h.time then x :: insertHit h xs else h :: x :: xs

/-- Stable sort by `time` ascending. -/
def sortHits (hits : List Hit) : List Hit :=
  hits.foldl (fun acc h => insertHit h acc) []

/-- The per-hit mapping loop of lines 141-144; the first uncaught error
aborts the whole call, producing no notes. -/
def mapHitsGo (sync : SyncTrack) (fuel : ℕ) : List Hit → Option (Except MapErr (List NoteOut))
  | [] => some (.ok [])
  | h :: rest =>
    match find_beat_time_for_seconds sync h.time fuel with
    | none => none
    | some (.error e) => some (.error e)
    | some (.ok t) =>
      (mapHitsGo sync fuel rest).map (fun r => r.map (fun l => ⟨h.instrument, t⟩ :: l))

/-- Source `map_to_beat_time` (lines 103-146): sort the hits by time,
return `[]` immediately when there are none, otherwise map every hit. -/
def map_to_beat_time (hits_dict : List Hit) (sync : SyncTrack) (fuel : ℕ) :
    Option (Except MapErr (List NoteOut)) :=
  let hits_sorted_by_time := sortHits hits_dict
  if hits_sorted_by_time.isEmpty then some (.ok [])
  else mapHitsGo sync fuel hits_sorted_by_time

/-- Python truthiness of `prev_hit` (a float or `None`): `None` and `0.0`
are falsy. -/
def pytruthy : Option ℚ → Bool
  | none => false
  | some x => x ≠ 0

/-- The per-category dedup/append loop of `map_to_hits` (lines 92-97):
returns the retained hit times for one category. -/
def map_to_hits_category (category : String) (prev_hit : Option ℚ) :
    List ℚ → List ℚ
  | [] => []
  | hit :: rest =>
    if category = "kick" ∧ pytruthy prev_hit ∧ hit - prev_hit.getD 0 < 1/10 then
      map_to_hits_category category prev_hit rest
    else
      hit :: map_to_hits_category category (some hit) rest

/-- Element-wise repetition of each mask frame, as
`np.repeat(mask, k, axis=1)` on a 1-row mask. -/
def expand_mask (k : ℕ) : List Bool → List Bool
  | [] => []
  | b :: m => List.replicate k b ++ expand_mask k m

/-- Source `int(np.ceil(len(y) / mask.shape[1]))` as exact natural ceiling
division. -/
def repeat_count (ylen nframes : ℕ) : ℕ := (ylen + nframes - 1) / nframes

/-- Lines 59-60 of `detect_hits`: upsample the frame mask and trim it to
the waveform length. -/
def upsample_mask (mask : List Bool) (ylen : ℕ) : List Bool :=
  (expand_mask (repeat_count ylen mask.length) mask).take ylen

/-- Line 63 of `detect_hits`: element-wise gating product `y * mask`. -/
def apply_mask (y : List ℚ) (mask : List Bool) : List ℚ :=
  List.zipWith (fun s b => s * (if b then 1 else 0)) y mask

/-- Modelled from the spec's words for claim C4 ("if `H` exceeds capacity 4,
drop the oldest entry"): identical to `loop_body` except that the candidate
buffer is trimmed only when it exceeds 4 entries.  Used solely to compare
the claimed policy with the source's. -/
def loop_body_spec_cap4 (sync : SyncTrack) (s : MState) : MState :=
  let t := s.current_8th + RESULUTION
  let sec := if 0 < t then s.current_seconds + beats_to_seconds RESOLUTION s.current_bpm
             else s.current_seconds
  let bpm := match sync_lookup t sync with
    | some v => (v : ℚ) / 1000
    | none => s.current_bpm
  let cs0 := s.candidates ++ [(t, sec)]
  let cs := if 4 < cs0.length then cs0.drop 1 else cs0
  ⟨t, bpm, sec, cs⟩

/-- The claim-C4 variant of `loop_go`, with the capacity-4 buffer. -/
def loop_go_spec_cap4 (sync : SyncTrack) (target : ℚ) :
    ℕ → MState → Option (List (ℤ × ℚ))
  | 0, _ => none
  | fuel+1, s =>
    let s' := loop_body_spec_cap4 sync s
    if target < s'.current_seconds then some s'.candidates
    else loop_go_spec_cap4 sync target fuel s'

/-- The claim-C4 variant of `find_beat_time_for_seconds`, with the
capacity-4 buffer. -/
def find_beat_time_spec_cap4 (sync : SyncTrack) (seconds_to_find : ℚ) (fuel : ℕ) :
    Option (Except MapErr ℤ) :=
  match sync_lookup 0 sync with
  | none => some (.error .missingTickZero)
  | some v0 =>
    (loop_go_spec_cap4 sync seconds_to_find fuel (initState v0)).map
      (fun cs => .ok (closest_8th seconds_to_find cs))

/-- The simulation loop of `find_beat_time_for_seconds` diverges on this
query: no amount of fuel makes it break. -/
def find_diverges (sync : SyncTrack) (t : ℚ) : Prop :=
  ∀ fuel, find_beat_time_for_seconds sync t fuel = none

/-- Some fuel suffices for `find_beat_time_for_seconds` to return a tick on
this query. -/
def eventually_returns (sync : SyncTrack) (t : ℚ) : Prop :=
  ∃ fuel r, find_beat_time_for_seconds sync t fuel = some (Except.ok r)

/-! Basic structural lemmas. -/

theorem loop_body_current_8th (sync : SyncTrack) (s : MState) :
    (loop_body sync s).current_8th = s.current_8th + RESULUTION := rfl

theorem loop_body_current_seconds (sync : SyncTrack) (s : MState) :
    (loop_body sync s).current_seconds =
      if 0 < s.current_8th + RESULUTION then
        s.current_seconds + beats_to_seconds RESOLUTION s.current_bpm
      else s.current_seconds := rfl

theorem loop_body_current_bpm (sync : SyncTrack) (s : MState) :
    (loop_body sync s).current_bpm =
      match sync_lookup (s.current_8th + RESULUTION) sync with
      | some v => (v : ℚ) / 1000
      | none => s.current_bpm := rfl

theorem loop_body_candidates (sync : SyncTrack) (s : MState) :
    (loop_body sync s).candidates =
      if 3 < (s.candidates ++ [((loop_body sync s).current_8th,
          (loop_body sync s).current_seconds)]).length then
        (s.candidates ++ [((loop_body sync s).current_8th,
          (loop_body sync s).current_seconds)]).drop 1
      else s.candidates ++ [((loop_body sync s).current_8th,
          (loop_body sync s).current_seconds)] := rfl

theorem loop_go_succ (sync : SyncTrack) (target : ℚ) (fuel : ℕ) (s : MState) :
    loop_go sync target (fuel + 1) s =
      if target < (loop_body sync s).current_seconds then
        some (loop_body sync s).candidates
      else loop_go sync target fuel (loop_body sync s) := rfl

theorem length_insertHit (h : Hit) (l : List Hit) :
    (insertHit h l).length = l.length + 1 := by
  induction l with
  | nil => rfl
  | cons x xs ih =>
    simp only [insertHit]
    split <;> simp [ih]

theorem length_sortHits_aux (l : List Hit) :
    ∀ acc : List Hit, (l.foldl (fun acc h => insertHit h acc) acc).length
      = acc.length + l.length := by
  induction l with
  | nil => intro acc; simp
  | cons x xs ih =>
    intro acc
    simp only [List.foldl_cons]
    rw [ih, length_insertHit, List.length_cons]
    omega

theorem length_sortHits (l : List Hit) : (sortHits l).length = l.length := by
  simpa [sortHits] using length_sortHits_aux l []

theorem foldl_closest_mem (t : ℚ) :
    ∀ (cs : List (ℤ × ℚ)) (acc : Option (ℤ × ℚ)) (b : ℤ × ℚ),
      cs.foldl (fun closest c =>
        match closest with
        | none => some c
        | some b => if |c.2 - t| < |b.2 - t| then some c else some b) acc = some b →
      acc = some b ∨ b ∈ cs := by
  intro cs
  induction cs with
  | nil => intro acc b hb; exact Or.inl hb
  | cons c cs' ih =>
    intro acc b hb
    simp only [List.foldl_cons] at hb
    rcases ih _ b hb with hstep | hmem
    · cases acc with
      | none =>
        simp only at hstep
        right; rw [Option.some_inj] at hstep; simp [← hstep]
      | some a =>
        simp only at hstep
        split at hstep
        · right; rw [Option.some_inj] at hstep; simp [← hstep]
        · left; rw [Option.some_inj] at hstep; rw [hstep]
    · right; exact List.mem_cons_of_mem _ hmem

theorem closest_8th_cases (t : ℚ) (cs : List (ℤ × ℚ)) :
    closest_8th t cs = 0 ∨ ∃ q : ℚ, (closest_8th t cs, q) ∈ cs := by
  unfold closest_8th closest_fold
  cases hfold : cs.foldl (fun closest c =>
      match closest with
      | none => some c
      | some b => if |c.2 - t| < |b.2 - t| then some c else some b) none with
  | none => left; rfl
  | some b =>
    rcases foldl_closest_mem t cs none b hfold with h | h
    · exact absurd h (by simp)
    · right; exact ⟨b.2, by simpa using h⟩

/-! C10: empty hit list returns immediately. -/

/-- C10: when the input hit list is empty, `map_to_beat_time` returns the
empty note list at once, for every sync track and every fuel — in
particular it never reads the sync track, so an empty or tick-0-less map
causes no error. -/
theorem C10_empty_hits_empty_output (sync : SyncTrack) (fuel : ℕ) :
    map_to_beat_time [] sync fuel = some (Except.ok []) := rfl

/-! C2: the Kick dedup invariant is broken by a kept onset at time 0.0. -/

/-- C2 (code bug): on kick onsets `[0, 0.05]` the source keeps both hits —
`prev_hit` holds the float `0.0`, which is falsy in Python, so the
`prev_hit and hit - prev_hit < 0.1` guard is skipped — leaving two
consecutive retained hits only 0.05 s apart, violating the claimed
invariant `time[i+1] - time[i] >= 0.10`. -/
theorem C2_kick_dedup_gap_violated_at_zero :
    map_to_hits_category "kick" none [0, 1/20] = [0, 1/20]
      ∧ (1/20 : ℚ) - 0 < 1/10 := by
  constructor
  · rfl
  · norm_num

/-! C5: negative targets return tick 0 instead of failing. -/

theorem neg_target_ok_zero (sync : SyncTrack) (v0 : ℤ) (t : ℚ) (f : ℕ)
    (hlook : sync_lookup 0 sync = some v0) (ht : t < 0) :
    find_beat_time_for_seconds sync t (f + 1) = some (Except.ok 0) := by
  simp only [find_beat_time_for_seconds, hlook, loop_go, loop_body, initState]
  norm_num [RESULUTION]
  rw [if_pos ht]
  simp [closest_8th, closest_fold]

/-- C5 (amended): for every negative `target_seconds` and every sync track
containing tick 0, the mapper returns tick 0 — the loop breaks at its very
first candidate — rather than failing with any error; no `InvalidTempoQuery`
error path exists in the source. -/
theorem C5_negative_target_returns_zero (sync : SyncTrack) (v0 : ℤ) (t : ℚ)
    (fuel : ℕ) (hlook : sync_lookup 0 sync = some v0) (ht : t < 0)
    (hf : 0 < fuel) :
    find_beat_time_for_seconds sync t fuel = some (Except.ok 0) := by
  cases fuel with
  | zero => exact absurd hf (by simp)
  | succ f => exact neg_target_ok_zero sync v0 t f hlook ht

/-- C5 (counterexample): at the concrete negative target -1 s with the
constant-120-BPM sync track, the mapper returns the tick 0 instead of
failing. -/
theorem C5_counterexample_negative_target_returns_tick :
    find_beat_time_for_seconds [(0, 120000)] (-1) 5 = some (Except.ok 0) := rfl

theorem C5_witness :
    find_beat_time_for_seconds [(0, 100)] (-3) 1 = some (Except.ok 0) :=
  C5_negative_target_returns_zero [(0, 100)] 100 (-3) 1 rfl (by norm_num)
    (by norm_num)

/-! C6: a sync track without tick 0 makes the mapper fail (for non-empty
hit lists). -/

/-- C6 (amended): for every non-empty hit list, every fuel, and every sync
track without a tick-0 entry, `map_to_beat_time` fails with the
missing-tick-0 error (the spec's `MalformedTempoMap`; an uncaught
`KeyError` in the source) and produces no notes.  For the empty hit list
the mapper instead returns `[]` without touching the sync track. -/
theorem C6_missing_tick_zero_errors (hits : List Hit) (sync : SyncTrack)
    (fuel : ℕ) (hlook : sync_lookup 0 sync = none) (hne : hits ≠ []) :
    map_to_beat_time hits sync fuel = some (Except.error MapErr.missingTickZero) := by
  have hlen : (sortHits hits).length ≠ 0 := by
    rw [length_sortHits]
    simpa using hne
  have hne' : sortHits hits ≠ [] := by
    intro hcon
    rw [hcon] at hlen
    exact hlen rfl
  obtain ⟨h, rest, hsorted⟩ := List.exists_cons_of_ne_nil hne'
  simp only [map_to_beat_time, hsorted, List.isEmpty_cons, Bool.false_eq_true,
    if_false]
  simp only [mapHitsGo, find_beat_time_for_seconds, hlook]

/-- C6 (counterexample): with the empty sync track (no tick 0) and the
empty hit list, `map_to_beat_time` returns the empty note list with no
error, so the claim's "for every hit list" fails at the empty one. -/
theorem C6_counterexample_empty_hits_no_error :
    map_to_beat_time [] [] 0 = some (Except.ok []) := rfl

theorem C6_witness :
    map_to_beat_time [⟨"kick", 1⟩] [] 3 = some (Except.error MapErr.missingTickZero) :=
  C6_missing_tick_zero_errors [⟨"kick", 1⟩] [] 3 rfl (by simp)

/-! C7: the upsampled mask exactly matches the waveform length. -/

theorem length_expand_mask (k : ℕ) (m : List Bool) :
    (expand_mask k m).length = k * m.length := by
  induction m with
  | nil => simp [expand_mask]
  | cons b m' ih =>
    simp only [expand_mask, List.length_append, List.length_replicate,
      List.length_cons, ih]
    ring

theorem le_mul_repeat_count (L F : ℕ) (hF : 0 < F) :
    L ≤ repeat_count L F * F := by
  unfold repeat_count
  rw [Nat.mul_comm]
  have hdm := Nat.div_add_mod (L + F - 1) F
  have hlt : (L + F - 1) % F < F := Nat.mod_lt _ hF
  omega

/-- C7: for every waveform and every non-empty frame mask (librosa's RMS
always yields at least one frame), the mask upsampled by element-wise
repetition and trimmed has length exactly the waveform length, so the
element-wise gating product is defined with no length mismatch. -/
theorem C7_mask_length_matches (y : List ℚ) (mask : List Bool)
    (hmask : mask ≠ []) :
    (upsample_mask mask y.length).length = y.length
      ∧ (apply_mask y (upsample_mask mask y.length)).length = y.length := by
  have hF : 0 < mask.length := List.length_pos.mpr hmask
  have hup : (upsample_mask mask y.length).length = y.length := by
    unfold upsample_mask
    rw [List.length_take, length_expand_mask]
    have := le_mul_repeat_count y.length mask.length hF
    omega
  refine ⟨hup, ?_⟩
  unfold apply_mask
  rw [List.length_zipWith, hup]
  omega

theorem C7_witness :
    (upsample_mask [true, false] 3).length = 3
      ∧ (apply_mask [1, 2, 3] (upsample_mask [true, false] 3)).length = 3 :=
  C7_mask_length_matches [1, 2, 3] [true, false] (by simp)

/-! C8: any returned tick is a non-negative multiple of the step. -/

theorem loop_go_candidates_inv (sync : SyncTrack) (t : ℚ) :
    ∀ (f : ℕ) (s : MState) (c : List (ℤ × ℚ)),
      RESULUTION ∣ s.current_8th → -RESULUTION ≤ s.current_8th →
      (∀ p ∈ s.candidates, 0 ≤ p.1 ∧ RESULUTION ∣ p.1) →
      loop_go sync t f s = some c →
      ∀ p ∈ c, 0 ≤ p.1 ∧ RESULUTION ∣ p.1 := by
  intro f
  induction f with
  | zero => intro s c _ _ _ hgo; exact absurd hgo (by simp [loop_go])
  | succ f' ih =>
    intro s c hdvd hle hcand hgo
    have hdvd' : RESULUTION ∣ (loop_body sync s).current_8th := by
      rw [loop_body_current_8th]
      exact dvd_add hdvd dvd_rfl
    have hle' : 0 ≤ (loop_body sync s).current_8th := by
      rw [loop_body_current_8th]
      have : (0 : ℤ) < RESULUTION := by norm_num [RESULUTION]
      omega
    have hcand' : ∀ p ∈ (loop_body sync s).candidates, 0 ≤ p.1 ∧ RESULUTION ∣ p.1 := by
      intro p hp
      rw [loop_body_candidates] at hp
      have hbase : p ∈ s.candidates ++ [((loop_body sync s).current_8th,
          (loop_body sync s).current_seconds)] := by
        split at hp
        · exact List.mem_of_mem_drop hp
        · exact hp
      rcases List.mem_append.mp hbase with hold | hnew
      · exact hcand p hold
      · have hpe : p = ((loop_body sync s).current_8th,
            (loop_body sync s).current_seconds) := by simpa using hnew
        rw [hpe]
        exact ⟨hle', hdvd'⟩
    rw [loop_go_succ] at hgo
    by_cases hbr : t < (loop_body sync s).current_seconds
    · rw [if_pos hbr, Option.some_inj] at hgo
      rw [← hgo]
      exact hcand'
    · rw [if_neg hbr] at hgo
      exact ih (loop_body sync s) c hdvd' (by
        have : (0 : ℤ) < RESULUTION := by norm_num [RESULUTION]
        omega) hcand' hgo

theorem find_ok_nonneg_mul (sync : SyncTrack) (t : ℚ) (f : ℕ) (r : ℤ)
    (hfind : find_beat_time_for_seconds sync t f = some (Except.ok r)) :
    0 ≤ r ∧ RESULUTION ∣ r := by
  unfold find_beat_time_for_seconds at hfind
  cases hlook : sync_lookup 0 sync with
  | none => rw [hlook] at hfind; simp at hfind
  | some v0 =>
    rw [hlook] at hfind
    rcases Option.map_eq_some'.mp hfind with ⟨c, hgo, hok⟩
    have hr : closest_8th t c = r := by
      simpa using hok
    have hinv := loop_go_candidates_inv sync t f (initState v0) c
      (by simp [initState]) (by simp [initState]) (by simp [initState]) hgo
    rcases closest_8th_cases t c with hzero | ⟨q, hmem⟩
    · rw [hr] at hzero
      rw [hzero]
      exact ⟨le_refl 0, dvd_zero _⟩
    · rw [hr] at hmem
      exact hinv (r, q) hmem

/-- C8: for every sync track, target and fuel, any tick the mapper returns
is non-negative and a multiple of the step `RESULUTION = 192 / 2`. -/
theorem C8_tick_nonneg_multiple_of_step (sync : SyncTrack) (t : ℚ) (fuel : ℕ)
    (r : ℤ) (hfind : find_beat_time_for_seconds sync t fuel = some (Except.ok r)) :
    0 ≤ r ∧ RESULUTION ∣ r :=
  find_ok_nonneg_mul sync t fuel r hfind

theorem C8_witness :
    find_beat_time_for_seconds [(0, 60000)] (1/10) 5 = some (Except.ok 0)
      ∧ (0 ≤ (0 : ℤ) ∧ RESULUTION ∣ (0 : ℤ)) :=
  ⟨by with_unfolding_all rfl,
    C8_tick_nonneg_multiple_of_step [(0, 60000)] (1/10) 5 0 (by with_unfolding_all rfl)⟩

/-! C4: the candidate buffer keeps at most 3 (not 4) entries. -/

theorem loop_go_length_inv (sync : SyncTrack) (t : ℚ) :
    ∀ (f : ℕ) (s : MState) (c : List (ℤ × ℚ)),
      s.candidates.length ≤ 3 → loop_go sync t f s = some c → c.length ≤ 3 := by
  intro f
  induction f with
  | zero => intro s c _ hgo; exact absurd hgo (by simp [loop_go])
  | succ f' ih =>
    intro s c hlen hgo
    have hlen' : (loop_body sync s).candidates.length ≤ 3 := by
      rw [loop_body_candidates]
      split
      · simp only [List.length_drop, List.length_append, List.length_singleton]
        omega
      · simp only [List.length_append, List.length_singleton] at *
        omega
    rw [loop_go_succ] at hgo
    by_cases hbr : t < (loop_body sync s).current_seconds
    · rw [if_pos hbr, Option.some_inj] at hgo
      rw [← hgo]
      exact hlen'
    · rw [if_neg hbr] at hgo
      exact ih (loop_body sync s) c hlen' hgo

/-- C4 (amended): the candidate history buffer holds at most the **3** most
recent points — after each append the source drops the oldest entry as soon
as the buffer exceeds 3 (`if len(candidates) > 3: candidates.pop(0)`) — and
the final answer is the closest-seconds candidate among these at-most-3
survivors, ties broken in favor of the earliest-inserted entry (the strict
`<` comparison keeps the incumbent). -/
theorem C4_buffer_capacity_three (sync : SyncTrack) (t : ℚ) (fuel : ℕ)
    (v0 : ℤ) (c : List (ℤ × ℚ)) (hlook : sync_lookup 0 sync = some v0)
    (hgo : loop_go sync t fuel (initState v0) = some c) :
    c.length ≤ 3
      ∧ find_beat_time_for_seconds sync t fuel = some (Except.ok (closest_8th t c)) := by
  constructor
  · exact loop_go_length_inv sync t fuel (initState v0) c (by simp [initState]) hgo
  · unfold find_beat_time_for_seconds
    rw [hlook]
    show Option.map (fun cs => Except.ok (closest_8th t cs))
      (loop_go sync t fuel (initState v0)) = _
    rw [hgo]
    rfl

/-- C4 (counterexample): on the sync track
`{0: 40000, 96: -60000, 192: 240000, 288: 30000}` with target 1 s, the
source's buffer ends with only 3 surviving candidates and answers tick 384,
while the claimed capacity-4 policy would keep 4 candidates and answer
tick 96 — so the final answer is *not* chosen among the 4 most recent
points. -/
theorem C4_counterexample_capacity :
    (loop_go [(0, 40000), (96, -60000), (192, 240000), (288, 30000)] 1 20
        (initState 40000)).map List.length = some 3
      ∧ find_beat_time_for_seconds [(0, 40000), (96, -60000), (192, 240000), (288, 30000)] 1 20
          = some (Except.ok 384)
      ∧ find_beat_time_spec_cap4 [(0, 40000), (96, -60000), (192, 240000), (288, 30000)] 1 20
          = some (Except.ok 96)
      ∧ (384 : ℤ) ≠ 96 :=
  ⟨by with_unfolding_all rfl, by with_unfolding_all rfl, by with_unfolding_all rfl,
    by decide⟩

theorem C4_witness :
    ([(288, 3/4), (384, 1), (480, 5/4)] : List (ℤ × ℚ)).length ≤ 3
      ∧ find_beat_time_for_seconds [(0, 120000)] 1 10
          = some (Except.ok (closest_8th 1 [(288, 3/4), (384, 1), (480, 5/4)])) :=
  C4_buffer_capacity_three [(0, 120000)] 1 10 120000
    [(288, 3/4), (384, 1), (480, 5/4)] rfl (by with_unfolding_all rfl)

/-! C3: there is no iteration guard; the loop can run forever. -/

/-- A tempo map with a negative BPM reachable via a change point
(`{0: 120 BPM, 96: -120 BPM}`, stored as bpm*1000). -/
def exM3 : SyncTrack := [(0, 120000), (96, -120000)]

theorem exM3_loop_none (t : ℚ) (ht : 1/4 ≤ t) :
    ∀ (f : ℕ) (s : MState), s.current_bpm = -120 → s.current_seconds ≤ 1/4 →
      96 ≤ s.current_8th → loop_go exM3 t f s = none := by
  intro f
  induction f with
  | zero => intro s _ _ _; rfl
  | succ f' ih =>
    intro s hbpm hsec htick
    have htick' : (loop_body exM3 s).current_8th = s.current_8th + 96 := by
      rw [loop_body_current_8th]
      norm_num [RESULUTION]
    have hsec' : (loop_body exM3 s).current_seconds = s.current_seconds - 1/4 := by
      rw [loop_body_current_seconds]
      rw [if_pos (by norm_num [RESULUTION]; omega)]
      rw [hbpm]
      norm_num [beats_to_seconds, RESOLUTION]
      ring
    have hbpm' : (loop_body exM3 s).current_bpm = -120 := by
      rw [loop_body_current_bpm]
      have h0 : s.current_8th + RESULUTION ≠ 0 := by norm_num [RESULUTION]; omega
      have h96 : s.current_8th + RESULUTION ≠ 96 := by norm_num [RESULUTION]; omega
      simp only [exM3, sync_lookup, if_neg h0, if_neg h96]
      exact hbpm
    rw [loop_go_succ]
    rw [if_neg (by rw [hsec']; intro hcon; linarith)]
    exact ih (loop_body exM3 s) hbpm' (by rw [hsec']; linarith)
      (by rw [htick']; omega)

theorem exM3_diverges_aux (t : ℚ) (ht : 1/4 ≤ t) :
    ∀ f, find_beat_time_for_seconds exM3 t f = none := by
  have hs1 : loop_body exM3 (initState 120000) = ⟨0, 120, 0, [(0, 0)]⟩ := by
    with_unfolding_all rfl
  have hs2 : loop_body exM3 ⟨0, 120, 0, [(0, 0)]⟩
      = ⟨96, -120, 1/4, [(0, 0), (96, 1/4)]⟩ := by
    with_unfolding_all rfl
  have hover : ∀ f, loop_go exM3 t f (initState 120000) = none := by
    intro f
    match f with
    | 0 => rfl
    | 1 =>
      rw [loop_go_succ, hs1]
      rw [if_neg (by intro hcon; norm_num at hcon; linarith)]
      rfl
    | (f' + 2) =>
      rw [loop_go_succ, hs1]
      rw [if_neg (by intro hcon; norm_num at hcon; linarith)]
      rw [loop_go_succ, hs2]
      rw [if_neg (by intro hcon; norm_num at hcon; linarith)]
      exact exM3_loop_none t ht f' ⟨96, -120, 1/4, [(0, 0), (96, 1/4)]⟩ rfl
        (by norm_num) (by norm_num)
  intro f
  unfold find_beat_time_for_seconds
  have hlook : sync_lookup 0 exM3 = some 120000 := rfl
  rw [hlook]
  show Option.map (fun cs => Except.ok (closest_8th t cs))
    (loop_go exM3 t f (initState 120000)) = _
  rw [hover f]
  rfl

/-- C3 (amended): the source's `while True` loop has **no** iteration guard
and no `TempoMapDivergence` error: on the pathological tempo map
`{0: 120 BPM, 96: -120 BPM}` (negative BPM reachable via a change point),
for every target of at least 0.25 s the simulation loop never breaks — no
amount of fuel makes `find_beat_time_for_seconds` return. -/
theorem C3_no_iteration_guard (t : ℚ) (ht : 1/4 ≤ t) : find_diverges exM3 t :=
  exM3_diverges_aux t ht

/-- C3 (counterexample): on the pathological tempo map
`{0: 120 BPM, 96: -120 BPM}` with target 2 s the loop runs forever — it
neither terminates nor raises any `TempoMapDivergence`-style error, so no
maximum iteration count is enforced. -/
theorem C3_counterexample_loop_diverges : find_diverges exM3 2 :=
  exM3_diverges_aux 2 (by norm_num)

theorem C3_witness : find_diverges exM3 1 :=
  C3_no_iteration_guard 1 (by norm_num)

/-! C9: with tick 0 present and all BPMs positive, the loop terminates. -/

/-- Upper bound for the bpm*1000 values stored in a sync track. -/
def vmax_sync (sync : SyncTrack) : ℤ :=
  sync.foldr (fun p acc => max p.2 acc) 1

theorem one_le_vmax_sync (sync : SyncTrack) : 1 ≤ vmax_sync sync := by
  induction sync with
  | nil => simp [vmax_sync]
  | cons p rest ih =>
    simp only [vmax_sync, List.foldr_cons] at *
    exact le_trans ih (le_max_right _ _)

theorem le_vmax_sync (sync : SyncTrack) : ∀ p ∈ sync, p.2 ≤ vmax_sync sync := by
  induction sync with
  | nil => simp
  | cons q rest ih =>
    intro p hp
    simp only [vmax_sync, List.foldr_cons]
    rcases List.mem_cons.mp hp with hq | hrest
    · rw [hq]; exact le_max_left _ _
    · exact le_trans (ih p hrest) (le_max_right _ _)

theorem sync_lookup_mem : ∀ (sync : SyncTrack) (k v : ℤ),
    sync_lookup k sync = some v → (k, v) ∈ sync := by
  intro sync
  induction sync with
  | nil => intro k v h; simp [sync_lookup] at h
  | cons p rest ih =>
    intro k v h
    simp only [sync_lookup] at h
    split at h
    · rw [Option.some_inj] at h
      rename_i heq
      obtain ⟨p1, p2⟩ := p
      simp only at heq h
      subst heq
      subst h
      exact List.mem_cons_self _ _
    · right
      exact ih k v h

/-- The loop's current BPM always lies in `(0, vmax/1000]` when all stored
BPMs are positive. -/
def GoodBpm (sync : SyncTrack) (b : ℚ) : Prop :=
  0 < b ∧ b ≤ (vmax_sync sync : ℚ) / 1000

theorem good_bpm_of_mem (sync : SyncTrack) (hpos : ∀ p ∈ sync, 0 < p.2)
    (k v : ℤ) (hl : sync_lookup k sync = some v) :
    GoodBpm sync ((v : ℚ) / 1000) := by
  have hmem := sync_lookup_mem sync k v hl
  constructor
  · have hv : (0 : ℤ) < v := hpos (k, v) hmem
    positivity
  · have hv : v ≤ vmax_sync sync := le_vmax_sync sync (k, v) hmem
    have : (v : ℚ) ≤ (vmax_sync sync : ℚ) := by exact_mod_cast hv
    linarith

theorem loop_body_good_bpm (sync : SyncTrack) (s : MState)
    (hpos : ∀ p ∈ sync, 0 < p.2) (h : GoodBpm sync s.current_bpm) :
    GoodBpm sync (loop_body sync s).current_bpm := by
  rw [loop_body_current_bpm]
  cases hl : sync_lookup (s.current_8th + RESULUTION) sync with
  | none => exact h
  | some v => exact good_bpm_of_mem sync hpos _ v hl

theorem beats_to_seconds_eq (b : ℚ) (hb : b ≠ 0) :
    beats_to_seconds RESOLUTION b = 30 / b := by
  unfold beats_to_seconds RESOLUTION
  field_simp
  ring

theorem beats_bound (sync : SyncTrack) (b : ℚ) (h : GoodBpm sync b) :
    30000 / (vmax_sync sync : ℚ) ≤ beats_to_seconds RESOLUTION b := by
  have hvm : (0 : ℚ) < (vmax_sync sync : ℚ) := by
    have := one_le_vmax_sync sync
    exact_mod_cast lt_of_lt_of_le Int.zero_lt_one this
  rw [beats_to_seconds_eq b (ne_of_gt h.1)]
  have h1 : 30 / ((vmax_sync sync : ℚ) / 1000) ≤ 30 / b := by
    apply div_le_div_of_nonneg_left (by norm_num) h.1 h.2
  calc 30000 / (vmax_sync sync : ℚ)
      = 30 / ((vmax_sync sync : ℚ) / 1000) := by
        field_simp
        norm_num
    _ ≤ 30 / b := h1

theorem delta_pos (sync : SyncTrack) : 0 < 30000 / (vmax_sync sync : ℚ) := by
  have hvm : (0 : ℚ) < (vmax_sync sync : ℚ) := by
    have := one_le_vmax_sync sync
    exact_mod_cast lt_of_lt_of_le Int.zero_lt_one this
  positivity

theorem loop_go_terminates_aux (sync : SyncTrack) (t : ℚ)
    (hpos : ∀ p ∈ sync, 0 < p.2) :
    ∀ (n : ℕ) (s : MState), GoodBpm sync s.current_bpm → 0 ≤ s.current_8th →
      t < s.current_seconds + n * (30000 / (vmax_sync sync : ℚ)) →
      (loop_go sync t (n + 1) s).isSome = true := by
  intro n
  induction n with
  | zero =>
    intro s hgood htick hlt
    have hsec' : s.current_seconds + 30000 / (vmax_sync sync : ℚ)
        ≤ (loop_body sync s).current_seconds := by
      rw [loop_body_current_seconds]
      rw [if_pos (by norm_num [RESULUTION]; omega)]
      have := beats_bound sync s.current_bpm hgood
      linarith
    rw [loop_go_succ]
    rw [if_pos (by
      simp only [Nat.cast_zero, zero_mul, add_zero] at hlt
      have := delta_pos sync
      linarith)]
    rfl
  | succ n' ih =>
    intro s hgood htick hlt
    rw [loop_go_succ]
    by_cases hbr : t < (loop_body sync s).current_seconds
    · rw [if_pos hbr]; rfl
    · rw [if_neg hbr]
      apply ih (loop_body sync s) (loop_body_good_bpm sync s hpos hgood)
      · rw [loop_body_current_8th]
        have : (0 : ℤ) < RESULUTION := by norm_num [RESULUTION]
        omega
      · have hsec' : s.current_seconds + 30000 / (vmax_sync sync : ℚ)
            ≤ (loop_body sync s).current_seconds := by
          rw [loop_body_current_seconds]
          rw [if_pos (by norm_num [RESULUTION]; omega)]
          have := beats_bound sync s.current_bpm hgood
          linarith
        push_cast at hlt ⊢
        linarith

/-- C9: for every sync track containing tick 0 with all stored BPM values
strictly positive, and every rational target, some fuel suffices for the
simulation loop to break — each iteration past tick 0 adds at least
`30000 / vmax` seconds, so the accumulated time eventually exceeds any
target even though the source has no iteration guard. -/
theorem C9_positive_bpm_terminates (sync : SyncTrack) (t : ℚ) (v0 : ℤ)
    (hlook : sync_lookup 0 sync = some v0) (hpos : ∀ p ∈ sync, 0 < p.2) :
    eventually_returns sync t := by
  obtain ⟨n, hn⟩ := exists_nat_gt (t / (30000 / (vmax_sync sync : ℚ)))
  have hdelta := delta_pos sync
  have htn : t < n * (30000 / (vmax_sync sync : ℚ)) := by
    rw [div_lt_iff₀ hdelta] at hn
    linarith
  have hs1tick : (loop_body sync (initState v0)).current_8th = 0 := by
    rw [loop_body_current_8th]
    simp [initState]
  have hs1sec : (loop_body sync (initState v0)).current_seconds = 0 := by
    rw [loop_body_current_seconds]
    rw [if_neg (by simp [initState])]
    simp [initState]
  have hs1good : GoodBpm sync (loop_body sync (initState v0)).current_bpm := by
    apply loop_body_good_bpm sync (initState v0) hpos
    exact good_bpm_of_mem sync hpos 0 v0 hlook
  have hsome : (loop_go sync t (n + 1) (loop_body sync (initState v0))).isSome = true := by
    apply loop_go_terminates_aux sync t hpos n _ hs1good (by rw [hs1tick])
    rw [hs1sec]
    linarith
  have hsome2 : (loop_go sync t (n + 2) (initState v0)).isSome = true := by
    rw [loop_go_succ]
    by_cases hbr : t < (loop_body sync (initState v0)).current_seconds
    · rw [if_pos hbr]; rfl
    · rw [if_neg hbr]; exact hsome
  obtain ⟨c, hc⟩ := Option.isSome_iff_exists.mp hsome2
  refine ⟨n + 2, closest_8th t c, ?_⟩
  unfold find_beat_time_for_seconds
  rw [hlook]
  show Option.map (fun cs => Except.ok (closest_8th t cs))
    (loop_go sync t (n + 2) (initState v0)) = _
  rw [hc]
  rfl

theorem C9_witness : eventually_returns [(0, 120000)] 1 :=
  C9_positive_bpm_terminates [(0, 120000)] 1 120000 rfl (by decide)

/-! C1: constant-BPM behaviour of the mapper — monotone in the target and
exact on grid points. -/

/-- Sync track with a single constant BPM entry at tick 0. -/
def const_track (v : ℤ) : SyncTrack := [(0, v)]

/-- Seconds added by one 96-tick step at constant bpm `v/1000`:
`(96/192) * (60/(v/1000)) = 30000/v`. -/
def dconst (v : ℤ) : ℚ := 30000 / (v : ℚ)

/-- The candidate appended at the i-th grid index on the constant track. -/
def cpt (v : ℤ) (i : ℕ) : ℤ × ℚ := (96 * (i : ℤ), dconst v * (i : ℚ))

/-- The candidate buffer contents after the iteration landing at grid
index `j` on the constant track. -/
def constWindow (v : ℤ) : ℕ → List (ℤ × ℚ)
  | 0 => [cpt v 0]
  | 1 => [cpt v 0, cpt v 1]
  | j + 2 => [cpt v j, cpt v (j + 1), cpt v (j + 2)]

/-- The loop state after the iteration landing at grid index `j` on the
constant track. -/
def constState (v : ℤ) (j : ℕ) : MState :=
  ⟨96 * (j : ℤ), (v : ℚ) / 1000, dconst v * (j : ℚ), constWindow v j⟩

theorem mstate_ext (a b : MState) (h1 : a.current_8th = b.current_8th)
    (h2 : a.current_bpm = b.current_bpm)
    (h3 : a.current_seconds = b.current_seconds)
    (h4 : a.candidates = b.candidates) : a = b := by
  cases a
  cases b
  simp_all

theorem beats_const (v : ℤ) (hv : (v : ℚ) ≠ 0) :
    beats_to_seconds RESOLUTION ((v : ℚ) / 1000) = dconst v := by
  unfold beats_to_seconds RESOLUTION dconst
  field_simp
  ring

theorem dconst_pos (v : ℤ) (hv : 0 < v) : 0 < dconst v := by
  have hvq : (0 : ℚ) < (v : ℚ) := by exact_mod_cast hv
  unfold dconst
  positivity

theorem body_const (v : ℤ) (hv : 0 < v) (j : ℕ) :
    loop_body (const_track v) (constState v j) = constState v (j + 1) := by
  have hvq : (v : ℚ) ≠ 0 := by
    have : (0 : ℚ) < (v : ℚ) := by exact_mod_cast hv
    linarith
  have hjz : (0 : ℤ) ≤ (j : ℤ) := Int.natCast_nonneg j
  have htick0 : (constState v j).current_8th = 96 * (j : ℤ) := rfl
  have hbpm0 : (constState v j).current_bpm = (v : ℚ) / 1000 := rfl
  have hsec0 : (constState v j).current_seconds = dconst v * (j : ℚ) := rfl
  have hcand0 : (constState v j).candidates = constWindow v j := rfl
  have htick' : (loop_body (const_track v) (constState v j)).current_8th
      = 96 * ((j : ℤ) + 1) := by
    rw [loop_body_current_8th, htick0]
    norm_num [RESULUTION]
    ring
  have htpos : 0 < (constState v j).current_8th + RESULUTION := by
    rw [htick0]
    norm_num [RESULUTION]
    omega
  have hlookup : sync_lookup ((constState v j).current_8th + RESULUTION)
      (const_track v) = none := by
    rw [htick0]
    have hne : ¬ (96 * (j : ℤ) + RESULUTION = 0) := by
      norm_num [RESULUTION]
      omega
    simp [sync_lookup, const_track, hne]
  have hbpm' : (loop_body (const_track v) (constState v j)).current_bpm
      = (v : ℚ) / 1000 := by
    rw [loop_body_current_bpm, hlookup]
    exact hbpm0
  have hsec' : (loop_body (const_track v) (constState v j)).current_seconds
      = dconst v * ((j : ℚ) + 1) := by
    rw [loop_body_current_seconds, if_pos htpos, hsec0, hbpm0, beats_const v hvq]
    ring
  have hpair : ((loop_body (const_track v) (constState v j)).current_8th,
      (loop_body (const_track v) (constState v j)).current_seconds)
        = cpt v (j + 1) := by
    rw [htick', hsec']
    unfold cpt
    rw [Prod.mk.injEq]
    constructor
    · push_cast
      ring
    · push_cast
      ring
  have hcand' : (loop_body (const_track v) (constState v j)).candidates
      = constWindow v (j + 1) := by
    rw [loop_body_candidates, hpair, hcand0]
    rcases j with _ | _ | m
    · rw [if_neg (by norm_num [constWindow])]
      rfl
    · rw [if_neg (by norm_num [constWindow])]
      rfl
    · rw [if_pos (by norm_num [constWindow])]
      rfl
  apply mstate_ext
  · rw [htick']
    show _ = 96 * (((j + 1 : ℕ) : ℤ))
    push_cast
    ring
  · rw [hbpm']
    rfl
  · rw [hsec']
    show _ = dconst v * (((j + 1 : ℕ) : ℚ))
    push_cast
    ring
  · rw [hcand']
    rfl

theorem init_const (v : ℤ) :
    loop_body (const_track v) (initState v) = constState v 0 := by
  apply mstate_ext
  · rw [loop_body_current_8th]
    show -RESULUTION + RESULUTION = 96 * ((0 : ℕ) : ℤ)
    norm_num
  · rw [loop_body_current_bpm]
    have hlookup : sync_lookup ((initState v).current_8th + RESULUTION)
        (const_track v) = some v := by
      show sync_lookup (-RESULUTION + RESULUTION) (const_track v) = some v
      norm_num [sync_lookup, const_track]
    rw [hlookup]
    rfl
  · rw [loop_body_current_seconds]
    rw [if_neg (by norm_num [initState])]
    show (0 : ℚ) = dconst v * ((0 : ℕ) : ℚ)
    norm_num
  · have hpair0 : ((loop_body (const_track v) (initState v)).current_8th,
        (loop_body (const_track v) (initState v)).current_seconds) = cpt v 0 := by
      rw [loop_body_current_8th, loop_body_current_seconds]
      rw [if_neg (by norm_num [initState])]
      unfold cpt initState
      rw [Prod.mk.injEq]
      constructor
      · push_cast
        ring
      · push_cast
        ring
    rw [loop_body_candidates, hpair0]
    rw [if_neg (by norm_num [initState])]
    rfl

theorem const_state_sec (v : ℤ) (j : ℕ) :
    (constState v (j + 1)).current_seconds = dconst v * ((j : ℚ) + 1) := by
  show dconst v * ((j + 1 : ℕ) : ℚ) = _
  push_cast
  ring

theorem const_no_break (v : ℤ) (hv : 0 < v) (t : ℚ) (n j : ℕ)
    (hstay : dconst v * ((n : ℚ) - 1) ≤ t) (hlt : j + 1 < n) :
    ¬ (t < (constState v (j + 1)).current_seconds) := by
  rw [const_state_sec]
  push_neg
  have hd := dconst_pos v hv
  have hcast : ((j : ℚ) + 1) ≤ (n : ℚ) - 1 := by
    have h2 : (j : ℕ) + 2 ≤ n := by omega
    have hc : ((j : ℚ) + 2) ≤ (n : ℚ) := by exact_mod_cast h2
    linarith
  nlinarith [hd, hcast, hstay]

theorem const_break (v : ℤ) (t : ℚ) (n j : ℕ)
    (hbreak : t < dconst v * (n : ℚ)) (heq : j + 1 = n) :
    t < (constState v (j + 1)).current_seconds := by
  rw [const_state_sec]
  have : ((j : ℚ) + 1) = (n : ℚ) := by exact_mod_cast heq
  rw [this]
  exact hbreak

theorem loop_go_const_unique (v : ℤ) (hv : 0 < v) (t : ℚ) (n : ℕ)
    (hbreak : t < dconst v * (n : ℚ)) (hstay : dconst v * ((n : ℚ) - 1) ≤ t) :
    ∀ (f j : ℕ) (c : List (ℤ × ℚ)), j < n →
      loop_go (const_track v) t f (constState v j) = some c →
      c = constWindow v n := by
  intro f
  induction f with
  | zero => intro j c _ hgo; exact absurd hgo (by simp [loop_go])
  | succ f' ih =>
    intro j c hj hgo
    rw [loop_go_succ, body_const v hv j] at hgo
    rcases Nat.lt_or_ge (j + 1) n with hlt | hge
    · rw [if_neg (const_no_break v hv t n j hstay hlt)] at hgo
      exact ih (j + 1) c hlt hgo
    · have heq : j + 1 = n := by omega
      rw [if_pos (const_break v t n j hbreak heq), Option.some_inj] at hgo
      rw [← hgo, heq]
      rfl

theorem loop_go_const_reaches (v : ℤ) (hv : 0 < v) (t : ℚ) (n : ℕ)
    (hbreak : t < dconst v * (n : ℚ)) (hstay : dconst v * ((n : ℚ) - 1) ≤ t) :
    ∀ (f j : ℕ), j < n → n ≤ j + f →
      loop_go (const_track v) t f (constState v j) = some (constWindow v n) := by
  intro f
  induction f with
  | zero => intro j hj hnle; omega
  | succ f' ih =>
    intro j hj hnle
    rw [loop_go_succ, body_const v hv j]
    rcases Nat.lt_or_ge (j + 1) n with hlt | hge
    · rw [if_neg (const_no_break v hv t n j hstay hlt)]
      exact ih (j + 1) hlt (by omega)
    · have heq : j + 1 = n := by omega
      rw [if_pos (const_break v t n j hbreak heq), heq]
      rfl

theorem const_track_lookup0 (v : ℤ) : sync_lookup 0 (const_track v) = some v := by
  norm_num [sync_lookup, const_track]

theorem find_const_unique (v : ℤ) (hv : 0 < v) (t : ℚ) (ht : 0 ≤ t) (n : ℕ)
    (hn : 0 < n) (hbreak : t < dconst v * (n : ℚ))
    (hstay : dconst v * ((n : ℚ) - 1) ≤ t) :
    ∀ (f : ℕ) (r : ℤ),
      find_beat_time_for_seconds (const_track v) t f = some (Except.ok r) →
      r = closest_8th t (constWindow v n) := by
  intro f r hfind
  unfold find_beat_time_for_seconds at hfind
  rw [const_track_lookup0 v] at hfind
  have hfind' : Option.map (fun cs => Except.ok (closest_8th t cs))
      (loop_go (const_track v) t f (initState v))
        = some (Except.ok r) := hfind
  rcases Option.map_eq_some'.mp hfind' with ⟨c, hgo, hok⟩
  have hr : closest_8th t c = r := by
    simpa using hok
  cases f with
  | zero => exact absurd hgo (by simp [loop_go])
  | succ f' =>
    rw [loop_go_succ, init_const v] at hgo
    have hnb : ¬ (t < (constState v 0).current_seconds) := by
      show ¬ (t < dconst v * ((0 : ℕ) : ℚ))
      push_neg
      norm_num
      exact ht
    rw [if_neg hnb] at hgo
    have hc := loop_go_const_unique v hv t n hbreak hstay f' 0 c hn hgo
    rw [← hr, hc]

theorem find_const_reaches (v : ℤ) (hv : 0 < v) (t : ℚ) (ht : 0 ≤ t) (n : ℕ)
    (hn : 0 < n) (hbreak : t < dconst v * (n : ℚ))
    (hstay : dconst v * ((n : ℚ) - 1) ≤ t) :
    find_beat_time_for_seconds (const_track v) t (n + 1)
      = some (Except.ok (closest_8th t (constWindow v n))) := by
  unfold find_beat_time_for_seconds
  rw [const_track_lookup0 v]
  show Option.map (fun cs => Except.ok (closest_8th t cs))
    (loop_go (const_track v) t (n + 1) (initState v)) = _
  rw [loop_go_succ, init_const v]
  have hnb : ¬ (t < (constState v 0).current_seconds) := by
    show ¬ (t < dconst v * ((0 : ℕ) : ℚ))
    push_neg
    norm_num
    exact ht
  rw [if_neg hnb]
  rw [loop_go_const_reaches v hv t n hbreak hstay n 0 hn (by omega)]
  rfl

theorem closest_8th_two (t : ℚ) (a b : ℤ × ℚ) :
    closest_8th t [a, b] = if |b.2 - t| < |a.2 - t| then b.1 else a.1 := by
  unfold closest_8th closest_fold
  rw [List.foldl_cons, List.foldl_cons, List.foldl_nil]
  show (Option.map Prod.fst
    (if |b.2 - t| < |a.2 - t| then some b else some a)).getD 0 = _
  by_cases h : |b.2 - t| < |a.2 - t| <;> simp [h]

theorem closest_8th_three_mid (t : ℚ) (a b c : ℤ × ℚ)
    (hab : |b.2 - t| < |a.2 - t|) :
    closest_8th t [a, b, c] = if |c.2 - t| < |b.2 - t| then c.1 else b.1 := by
  unfold closest_8th closest_fold
  rw [List.foldl_cons, List.foldl_cons, List.foldl_cons, List.foldl_nil]
  show (Option.map Prod.fst
    ((fun closest x => match closest with
      | none => some x
      | some y => if |x.2 - t| < |y.2 - t| then some x else some y)
      (if |b.2 - t| < |a.2 - t| then some b else some a) c)).getD 0 = _
  rw [if_pos hab]
  show (Option.map Prod.fst
    (if |c.2 - t| < |b.2 - t| then some c else some b)).getD 0 = _
  by_cases h : |c.2 - t| < |b.2 - t| <;> simp [h]

theorem closest_const_window (v : ℤ) (hv : 0 < v) (n : ℕ) (hn : 0 < n) (t : ℚ)
    (hstay : dconst v * ((n : ℚ) - 1) ≤ t) (hbreak : t < dconst v * (n : ℚ)) :
    closest_8th t (constWindow v n)
      = if 2 * t ≤ dconst v * (2 * (n : ℚ) - 1) then 96 * ((n : ℤ) - 1)
        else 96 * (n : ℤ) := by
  have hd := dconst_pos v hv
  rcases n with _ | _ | m
  · exact absurd hn (lt_irrefl 0)
  · -- n = 1
    have hstay1 : (0 : ℚ) ≤ t := by
      have heq : dconst v * (((0 + 1 : ℕ) : ℚ) - 1) = 0 := by
        push_cast
        ring
      rw [heq] at hstay
      exact hstay
    have hbreak1 : t < dconst v := by
      have heq : dconst v * ((0 + 1 : ℕ) : ℚ) = dconst v := by
        push_cast
        ring
      rw [heq] at hbreak
      exact hbreak
    show closest_8th t [cpt v 0, cpt v 1]
      = if 2 * t ≤ dconst v * (2 * ((0 + 1 : ℕ) : ℚ) - 1)
        then 96 * (((0 + 1 : ℕ) : ℤ) - 1) else 96 * ((0 + 1 : ℕ) : ℤ)
    have hcond : dconst v * (2 * ((0 + 1 : ℕ) : ℚ) - 1) = dconst v := by
      push_cast
      ring
    have hval1 : (96 : ℤ) * (((0 + 1 : ℕ) : ℤ) - 1) = 0 := by
      norm_num
    have hval2 : (96 : ℤ) * ((0 + 1 : ℕ) : ℤ) = 96 := by
      norm_num
    rw [hcond, hval1, hval2, closest_8th_two]
    have h02 : (cpt v 0).2 = 0 := by norm_num [cpt]
    have h12 : (cpt v 1).2 = dconst v := by norm_num [cpt]
    have h01 : (cpt v 0).1 = 0 := by norm_num [cpt]
    have h11 : (cpt v 1).1 = 96 := by norm_num [cpt]
    rw [h02, h12, h01, h11]
    rw [abs_of_nonneg (by linarith : (0 : ℚ) ≤ dconst v - t)]
    rw [zero_sub, abs_neg, abs_of_nonneg hstay1]
    rcases le_or_lt (2 * t) (dconst v) with hc | hc
    · rw [if_pos hc, if_neg (by intro hcon; linarith)]
    · rw [if_neg (not_le.mpr (by linarith)), if_pos (by linarith)]
  · -- n = m + 2
    have hstayq : dconst v * ((m : ℚ) + 1) ≤ t := by
      have heq : dconst v * (((m + 2 : ℕ) : ℚ) - 1) = dconst v * ((m : ℚ) + 1) := by
        push_cast
        ring
      rw [heq] at hstay
      exact hstay
    have hbreakq : t < dconst v * ((m : ℚ) + 2) := by
      have heq : dconst v * ((m + 2 : ℕ) : ℚ) = dconst v * ((m : ℚ) + 2) := by
        push_cast
        ring
      rw [heq] at hbreak
      exact hbreak
    have hmq : (0 : ℚ) ≤ (m : ℚ) := Nat.cast_nonneg m
    have ha2 : (cpt v m).2 = dconst v * (m : ℚ) := rfl
    have hb2 : (cpt v (m + 1)).2 = dconst v * ((m : ℚ) + 1) := by
      simp only [cpt]
      push_cast
      ring
    have hc2 : (cpt v (m + 2)).2 = dconst v * ((m : ℚ) + 2) := by
      simp only [cpt]
      push_cast
      ring
    have hb1 : (cpt v (m + 1)).1 = 96 * ((m : ℤ) + 1) := by
      simp only [cpt]
      push_cast
      ring
    have hc1 : (cpt v (m + 2)).1 = 96 * ((m : ℤ) + 2) := by
      simp only [cpt]
      push_cast
      ring
    have hstep : dconst v * (m : ℚ) < dconst v * ((m : ℚ) + 1) :=
      mul_lt_mul_of_pos_left (by linarith) hd
    have hab : |(cpt v (m + 1)).2 - t| < |(cpt v m).2 - t| := by
      rw [ha2, hb2]
      rw [abs_of_nonpos (by linarith), abs_of_nonpos (by linarith)]
      linarith
    show closest_8th t [cpt v m, cpt v (m + 1), cpt v (m + 2)]
      = if 2 * t ≤ dconst v * (2 * ((m + 2 : ℕ) : ℚ) - 1)
        then 96 * (((m + 2 : ℕ) : ℤ) - 1) else 96 * ((m + 2 : ℕ) : ℤ)
    have hcond : dconst v * (2 * ((m + 2 : ℕ) : ℚ) - 1)
        = dconst v * (2 * (m : ℚ) + 3) := by
      push_cast
      ring
    have hval1 : (96 : ℤ) * (((m + 2 : ℕ) : ℤ) - 1) = 96 * ((m : ℤ) + 1) := by
      push_cast
      ring
    have hval2 : (96 : ℤ) * ((m + 2 : ℕ) : ℤ) = 96 * ((m : ℤ) + 2) := by
      push_cast
      ring
    rw [hcond, hval1, hval2,
      closest_8th_three_mid t (cpt v m) (cpt v (m + 1)) (cpt v (m + 2)) hab]
    rw [hb2, hc2, hb1, hc1]
    rw [abs_of_nonneg (by linarith), abs_of_nonpos (by linarith)]
    have hexp : dconst v * ((m : ℚ) + 2) + dconst v * ((m : ℚ) + 1)
        = dconst v * (2 * (m : ℚ) + 3) := by
      ring
    rcases le_or_lt (2 * t) (dconst v * (2 * (m : ℚ) + 3)) with hc | hc
    · rw [if_pos hc, if_neg (by intro hcon; linarith)]
    · rw [if_neg (not_le.mpr (by linarith)), if_pos (by linarith)]

theorem exists_break_index (v : ℤ) (hv : 0 < v) (t : ℚ) (ht : 0 ≤ t) :
    ∃ n : ℕ, 0 < n ∧ dconst v * ((n : ℚ) - 1) ≤ t ∧ t < dconst v * (n : ℚ) := by
  have hd := dconst_pos v hv
  have hnn : (0 : ℚ) ≤ t / dconst v := by positivity
  have hfl : (0 : ℤ) ≤ ⌊t / dconst v⌋ := Int.floor_nonneg.mpr hnn
  have htn : ((⌊t / dconst v⌋.toNat : ℕ) : ℚ) = (⌊t / dconst v⌋ : ℚ) := by
    rw [← Int.cast_natCast]
    exact congrArg _ (Int.toNat_of_nonneg hfl)
  refine ⟨⌊t / dconst v⌋.toNat + 1, Nat.succ_pos _, ?_, ?_⟩
  · have hcast : ((⌊t / dconst v⌋.toNat + 1 : ℕ) : ℚ) - 1 = (⌊t / dconst v⌋ : ℚ) := by
      rw [Nat.cast_add, Nat.cast_one, htn]
      ring
    rw [hcast]
    have hle : (⌊t / dconst v⌋ : ℚ) ≤ t / dconst v := Int.floor_le _
    calc dconst v * (⌊t / dconst v⌋ : ℚ)
        ≤ dconst v * (t / dconst v) := mul_le_mul_of_nonneg_left hle (le_of_lt hd)
      _ = t := by field_simp
  · have hcast : ((⌊t / dconst v⌋.toNat + 1 : ℕ) : ℚ) = (⌊t / dconst v⌋ : ℚ) + 1 := by
      rw [Nat.cast_add, Nat.cast_one, htn]
    rw [hcast]
    have hlt : t / dconst v < (⌊t / dconst v⌋ : ℚ) + 1 := Int.lt_floor_add_one _
    calc t = dconst v * (t / dconst v) := by field_simp
      _ < dconst v * ((⌊t / dconst v⌋ : ℚ) + 1) := mul_lt_mul_of_pos_left hlt hd

theorem target_grid_eq (v : ℤ) (hv : 0 < v) (k : ℕ) :
    (k : ℚ) * ((RESULUTION : ℚ) / RESOLUTION) * (60 / ((v : ℚ) / 1000))
      = dconst v * (k : ℚ) := by
  have hvq : (v : ℚ) ≠ 0 := by
    have : (0 : ℚ) < (v : ℚ) := by exact_mod_cast hv
    linarith
  have hres : ((RESULUTION : ℤ) : ℚ) = 96 := by norm_num [RESULUTION]
  rw [hres]
  unfold RESOLUTION dconst
  field_simp
  ring

/-- C1: on a tempo map with a single constant-BPM entry at tick 0, the
mapper is non-decreasing in `target_seconds`, and a target of exactly
`k * (StepTicks/TicksPerBeat) * (60/bpm)` seconds maps to exactly the tick
`k * StepTicks` (exact grid points round-trip exactly): the returned tick
is unique over all sufficient fuels and fuel `k + 2` suffices. -/
theorem C1_constant_bpm_monotone_and_grid (v : ℤ) (hv : 0 < v) :
    (∀ (t1 t2 : ℚ) (f1 f2 : ℕ) (r1 r2 : ℤ), t1 ≤ t2 →
        find_beat_time_for_seconds (const_track v) t1 f1 = some (Except.ok r1) →
        find_beat_time_for_seconds (const_track v) t2 f2 = some (Except.ok r2) →
        r1 ≤ r2)
    ∧ ∀ k : ℕ,
        (∀ (f : ℕ) (r : ℤ),
          find_beat_time_for_seconds (const_track v)
              ((k : ℚ) * ((RESULUTION : ℚ) / RESOLUTION) * (60 / ((v : ℚ) / 1000))) f
            = some (Except.ok r) → r = RESULUTION * (k : ℤ))
        ∧ find_beat_time_for_seconds (const_track v)
            ((k : ℚ) * ((RESULUTION : ℚ) / RESOLUTION) * (60 / ((v : ℚ) / 1000)))
            (k + 2)
          = some (Except.ok (RESULUTION * (k : ℤ))) := by
  have hd := dconst_pos v hv
  constructor
  · -- monotonicity
    intro t1 t2 f1 f2 r1 r2 hle h1 h2
    have hr2nn : 0 ≤ r2 := (find_ok_nonneg_mul _ _ _ _ h2).1
    rcases lt_or_le t1 0 with hneg | hpos
    · cases f1 with
      | zero =>
        unfold find_beat_time_for_seconds at h1
        rw [const_track_lookup0 v] at h1
        have h1' : Option.map (fun cs => Except.ok (closest_8th t1 cs))
            (loop_go (const_track v) t1 0 (initState v)) = some (Except.ok r1) := h1
        simp [loop_go] at h1'
      | succ f1' =>
        have h0 := neg_target_ok_zero (const_track v) v t1 f1'
          (const_track_lookup0 v) hneg
        rw [h0] at h1
        have : r1 = 0 := by
          have := Option.some_inj.mp h1
          simpa using this.symm
        rw [this]
        exact hr2nn
    · have hpos2 : 0 ≤ t2 := le_trans hpos hle
      obtain ⟨n1, hn1, hstay1, hbreak1⟩ := exists_break_index v hv t1 hpos
      obtain ⟨n2, hn2, hstay2, hbreak2⟩ := exists_break_index v hv t2 hpos2
      have hr1 := find_const_unique v hv t1 hpos n1 hn1 hbreak1 hstay1 f1 r1 h1
      have hr2 := find_const_unique v hv t2 hpos2 n2 hn2 hbreak2 hstay2 f2 r2 h2
      rw [hr1, hr2, closest_const_window v hv n1 hn1 t1 hstay1 hbreak1,
        closest_const_window v hv n2 hn2 t2 hstay2 hbreak2]
      have hn12 : n1 ≤ n2 := by
        by_contra hcon
        push_neg at hcon
        have hcast : (n2 : ℚ) ≤ (n1 : ℚ) - 1 := by
          have hc1 : n2 + 1 ≤ n1 := hcon
          have hc2 : ((n2 : ℚ)) + 1 ≤ (n1 : ℚ) := by exact_mod_cast hc1
          linarith
        have hmul : dconst v * (n2 : ℚ) ≤ dconst v * ((n1 : ℚ) - 1) :=
          mul_le_mul_of_nonneg_left hcast (le_of_lt hd)
        linarith
      rcases Nat.eq_or_lt_of_le hn12 with heq | hlt
      · subst heq
        rcases le_or_lt (2 * t1) (dconst v * (2 * (n1 : ℚ) - 1)) with hc1 | hc1
        · rw [if_pos hc1]
          rcases le_or_lt (2 * t2) (dconst v * (2 * (n1 : ℚ) - 1)) with hc2 | hc2
          · rw [if_pos hc2]
          · rw [if_neg (not_le.mpr hc2)]
            linarith [Int.natCast_nonneg n1]
        · rw [if_neg (not_le.mpr hc1), if_neg (not_le.mpr (by linarith))]
      · have hle1 : (n1 : ℤ) + 1 ≤ (n2 : ℤ) := by exact_mod_cast hlt
        split_ifs <;> linarith
  · -- grid points
    intro k
    have htar := target_grid_eq v hv k
    have ht : 0 ≤ dconst v * (k : ℚ) := by positivity
    have hn : 0 < k + 1 := Nat.succ_pos k
    have hbreak : dconst v * (k : ℚ) < dconst v * ((k + 1 : ℕ) : ℚ) := by
      have : (k : ℚ) < ((k + 1 : ℕ) : ℚ) := by
        push_cast
        linarith
      exact mul_lt_mul_of_pos_left this hd
    have hstay : dconst v * (((k + 1 : ℕ) : ℚ) - 1) ≤ dconst v * (k : ℚ) :=
      le_of_eq (by push_cast; ring)
    have hclosest : closest_8th (dconst v * (k : ℚ)) (constWindow v (k + 1))
        = RESULUTION * (k : ℤ) := by
      rw [closest_const_window v hv (k + 1) hn _ hstay hbreak]
      rw [if_pos (by
        have hk : 2 * (k : ℚ) ≤ 2 * ((k + 1 : ℕ) : ℚ) - 1 := by
          push_cast
          linarith
        calc 2 * (dconst v * (k : ℚ)) = dconst v * (2 * (k : ℚ)) := by ring
          _ ≤ dconst v * (2 * ((k + 1 : ℕ) : ℚ) - 1) :=
            mul_le_mul_of_nonneg_left hk (le_of_lt hd))]
      have : ((k + 1 : ℕ) : ℤ) - 1 = (k : ℤ) := by
        push_cast
        ring
      rw [this]
      norm_num [RESULUTION]
    constructor
    · intro f r hf
      rw [htar] at hf
      have hu := find_const_unique v hv (dconst v * (k : ℚ)) ht (k + 1) hn
        hbreak hstay f r hf
      rw [hu, hclosest]
    · rw [show k + 2 = (k + 1) + 1 from rfl, htar]
      have hr := find_const_reaches v hv (dconst v * (k : ℚ)) ht (k + 1) hn
        hbreak hstay
      rw [hr, hclosest]

theorem C1_witness :
    find_beat_time_for_seconds (const_track 120000)
        (((2 : ℕ) : ℚ) * ((RESULUTION : ℚ) / RESOLUTION) * (60 / ((120000 : ℚ) / 1000))) 4
      = some (Except.ok (RESULUTION * ((2 : ℕ) : ℤ))) :=
  ((C1_constant_bpm_monotone_and_grid 120000 (by norm_num)).2 2).2

